import Mathlib

/-!
Shallow embedding of the filmot-cli client (src/filmot) for verification:
the response cache (cache.py), the rate limiter (rate_limiter.py) and the
request / pagination logic of the API client (api.py).

Machine conventions:
* wall-clock instants and durations are rationals (ℚ); `time.sleep(w)`
  advances the ideal clock by exactly `w`;
* a JSON response dict is modelled by `Payload`, which records its content
  and whether it carries an "error" key;
* the file-backed cache directory is a partial map from the cache-key
  string to a stored entry; an unreadable / undeserializable file is the
  `corrupt` entry.
-/

/-- A JSON response document: abstract content plus whether the dict has an
"error" key (`"error" in result` in api.py). -/
structure Payload where
  content : String
  hasErr : Bool
deriving DecidableEq

/-- One record of the file cache.  `entry ts d` is a readable file
`{timestamp: ts, ..., data: d}` (endpoint/params fields are also written by
`Cache.set` but never read back, so they are omitted); `corrupt` is a file
that raises `json.JSONDecodeError`/`IOError` on read. -/
inductive CacheEntry where
  | entry (timestamp : ℚ) (data : Payload)
  | corrupt
deriving DecidableEq

/-- The cache directory: key string to stored file. -/
def Store : Type := String → Option CacheEntry

/-- Overwrite the file for key `k` (`open(cache_path, 'w')`). -/
def Store.write (s : Store) (k : String) (e : CacheEntry) : Store :=
  fun q => if q = k then some e else s q

/-- Model of `cache_path.unlink()`: remove the file for key `k`. -/
def Store.unlink (s : Store) (k : String) : Store :=
  fun q => if q = k then none else s q

/-- Model of `_request` line 44: `{k: v for k, v in params.items() if v is not None}`. -/
def stripNone (ps : List (String × Option String)) : List (String × String) :=
  ps.filterMap fun p => match p.2 with
    | some v => some (p.1, v)
    | none => none

/-- Key order used by `json.dumps(params, sort_keys=True)`. -/
def keyLE (a b : String × String) : Prop := a.1 ≤ b.1

instance : DecidableRel keyLE := fun a b => by
  unfold keyLE; infer_instance

instance : IsTotal (String × String) keyLE :=
  ⟨fun a b => le_total a.1 b.1⟩

instance : IsTrans (String × String) keyLE :=
  ⟨fun _ _ _ hab hbc => le_trans hab hbc⟩

/-- Model of `json.dumps(params, sort_keys=True)`: serialize the parameter dict with
its keys in sorted order. -/
def dumpsSorted (ps : List (String × String)) : String :=
  String.intercalate "," ((ps.insertionSort keyLE).map fun p => p.1 ++ "=" ++ p.2)

namespace Cache

/-- Model of `Cache._get_cache_key`: `md5(f"{endpoint}:{json.dumps(params, sort_keys=True)}")`.
md5 is a pure function of the key string, so the claims about fingerprint
equality depend only on the string fed to it; the embedding therefore keeps
the key string itself as the fingerprint. -/
def getCacheKey (endpoint : String) (ps : List (String × String)) : String :=
  endpoint ++ ":" ++ dumpsSorted ps

/-- Model of `Cache.get` (cache.py lines 52-80): returns the cached data if present
and unexpired, deleting the file when it is found but expired; a corrupt
file makes `json.load` raise and the `except` branch returns `None` without
touching the file.  Result: the returned payload (or none) and the store
after the read. -/
def get (ttl : ℚ) (s : Store) (now : ℚ) (endpoint : String)
    (ps : List (String × String)) : Option Payload × Store :=
  let key := getCacheKey endpoint ps
  match s key with
  | none => (none, s)
  | some (.entry ts d) =>
      if ttl < now - ts then (none, s.unlink key) else (some d, s)
  | some .corrupt => (none, s)

/-- Model of `Cache.set` (cache.py lines 82-105): write `{timestamp: now, ..., data}`
for the key of `(endpoint, params)`. -/
def set (s : Store) (now : ℚ) (endpoint : String)
    (ps : List (String × String)) (d : Payload) : Store :=
  s.write (getCacheKey endpoint ps) (.entry now d)

end Cache

/-- The full mutable state of a `RateLimiter` / `AdaptiveRateLimiter`
(rate_limiter.py).  `times` is the `request_times` deque, oldest first;
its length never exceeds `burst` (deque `maxlen=burst_size`).  The
adaptive fields (`consecutiveErrors`, `backoff`, `maxBackoff`) sit in the
same record; the base-class operations simply never touch them.
`maxBackoff` is fixed to `10.0` by `AdaptiveRateLimiter.__init__`. -/
structure RLState where
  times : List ℚ
  rps : ℚ
  burst : ℕ
  totalRequests : ℕ
  totalWaits : ℕ
  totalWaitTime : ℚ
  consecutiveErrors : ℕ
  backoff : ℚ
  maxBackoff : ℚ
deriving DecidableEq

/-- Freshly constructed `AdaptiveRateLimiter(rps, burst)`. -/
def initRL (rps : ℚ) (burst : ℕ) : RLState :=
  { times := [], rps := rps, burst := burst,
    totalRequests := 0, totalWaits := 0, totalWaitTime := 0,
    consecutiveErrors := 0, backoff := 1, maxBackoff := 10 }

namespace RateLimiter

/-- Window pruning of `acquire`, lines 45-47: pop timestamps older than `now - 1.0` off the
front of the deque. -/
def pruneWindow (now : ℚ) : List ℚ → List ℚ
  | [] => []
  | t :: ts => if t < now - 1 then pruneWindow now ts else t :: ts

/-- The burst-capacity candidate wait of `acquire` (lines 50-53): when the
pruned window still holds `burst` timestamps, wait until the oldest exits
the one-second window.  (With `burst = 0` the Python code would raise
`IndexError` on `request_times[0]`; every theorem below assumes
`1 ≤ burst`, as in all construction sites.) -/
def burstCandidate (st : RLState) (now : ℚ) : ℚ :=
  let ts := pruneWindow now st.times
  if st.burst ≤ ts.length then ts.headD 0 + 1 - now else 0

/-- The minimum-interval candidate wait of `acquire` (lines 60-62):
`(last_request + min_interval) - now`, defined when the pruned window is
nonempty. -/
def intervalCandidate (st : RLState) (now : ℚ) : Option ℚ :=
  match (pruneWindow now st.times).getLast? with
  | some last => some (last + 1 / st.rps - now)
  | none => none

/-- Model of `RateLimiter.acquire` (lines 33-75), on the ideal clock: prune the
window, compute the wait (burst candidate, overridden by the interval
candidate when that is larger), sleep, and record the post-sleep clock in
the deque (dropping the oldest entry when the deque is at `maxlen`).
Returns the wait and the new state.  The stats counters `total_waits` /
`total_wait_time` are bumped with the burst candidate alone, exactly as in
the source (lines 55-57). -/
def acquire (st : RLState) (now : ℚ) : ℚ × RLState :=
  let ts := pruneWindow now st.times
  let atCap := st.burst ≤ ts.length
  let bc : ℚ := if atCap then ts.headD 0 + 1 - now else 0
  let tw := if atCap ∧ 0 < bc then st.totalWaits + 1 else st.totalWaits
  let twt := if atCap ∧ 0 < bc then st.totalWaitTime + bc else st.totalWaitTime
  let w : ℚ := match ts.getLast? with
    | some last =>
        if bc < last + 1 / st.rps - now then last + 1 / st.rps - now else bc
    | none => bc
  let stamp := if 0 < w then now + w else now
  let newTimes := if ts.length < st.burst then ts ++ [stamp]
    else ts.drop 1 ++ [stamp]
  (w,
    { st with
      times := newTimes
      totalRequests := st.totalRequests + 1
      totalWaits := tw
      totalWaitTime := twt })

/-- Model of `RateLimiter.report_success` (line 96-98): `pass`. -/
def reportSuccess (st : RLState) : RLState := st

/-- Model of `RateLimiter.report_rate_limit` (line 100-102): `pass`. -/
def reportRateLimit (st : RLState) : RLState := st

end RateLimiter

namespace AdaptiveRateLimiter

/-- Model of `AdaptiveRateLimiter.report_success` (lines 114-119). -/
def reportSuccess (st : RLState) : RLState :=
  { st with consecutiveErrors := 0,
            backoff := max 1 (st.backoff * (9 / 10)) }

/-- Model of `AdaptiveRateLimiter.report_rate_limit` (lines 121-126). -/
def reportRateLimit (st : RLState) : RLState :=
  { st with consecutiveErrors := st.consecutiveErrors + 1,
            backoff := min st.maxBackoff (st.backoff * 2) }

/-- Model of `AdaptiveRateLimiter.acquire` (lines 128-140): the base acquire, then
an extra backoff sleep of `(backoff - 1) * min_interval` when the backoff
factor exceeds 1.  The extra sleep happens after the admission timestamp
was recorded, so it does not enter the window. -/
def acquire (st : RLState) (now : ℚ) : ℚ × RLState :=
  let r := RateLimiter.acquire st now
  if 1 < r.2.backoff then
    let extra := (r.2.backoff - 1) * (1 / r.2.rps)
    if 0 < extra then (r.1 + extra, r.2) else r
  else r

end AdaptiveRateLimiter

/-- Outcome of the one network round-trip inside `_request`:
`response.json()` succeeds, or `raise_for_status` throws `HTTPError` with a
status code, or a `RequestException` occurs. -/
inductive NetResult where
  | ok (d : Payload)
  | httpErr (status : ℕ) (msg : String)
  | reqErr (msg : String)

namespace FilmotClient

/-- The network branch of `_request` (api.py lines 54-83): rate-limiter
acquire, the request itself, `report_success` on success (the client's
limiter is an `AdaptiveRateLimiter`), caching of non-error GET responses,
and the error dicts built in the `except` branches (both carry an
`"error"` key).  Returns (result, store, limiter, networkCalled). -/
def networkRequest (useCache : Bool) (ttl : ℚ) (method endpoint : String)
    (ps : List (String × String)) (net : NetResult) (now : ℚ)
    (s : Store) (rl : RLState) : Payload × Store × RLState × Bool :=
  let rl₁ := (AdaptiveRateLimiter.acquire rl now).2
  match net with
  | .ok d =>
      let rl₂ := AdaptiveRateLimiter.reportSuccess rl₁
      let s₁ := if method = "GET" ∧ useCache = true ∧ d.hasErr = false then
          Cache.set s now endpoint ps d
        else s
      (d, s₁, rl₂, true)
  | .httpErr status msg =>
      let rl₂ := if status = 429 then AdaptiveRateLimiter.reportRateLimit rl₁
        else rl₁
      (⟨msg, true⟩, s, rl₂, true)
  | .reqErr msg => (⟨msg, true⟩, s, rl₁, true)

/-- Model of `FilmotClient._request` (api.py lines 37-83) on the ideal clock: strip
`None`-valued params, consult the cache for GET requests when caching is on
and `skip_cache` is false (a hit returns immediately; a miss may still have
deleted an expired file), otherwise fall through to the network branch.
The last component of the result records whether a network call happened. -/
def request (useCache : Bool) (ttl : ℚ) (method endpoint : String)
    (params : List (String × Option String)) (skipCache : Bool)
    (net : NetResult) (now : ℚ) (s : Store) (rl : RLState) :
    Payload × Store × RLState × Bool :=
  let ps := stripNone params
  if method = "GET" ∧ useCache = true ∧ skipCache = false then
    match Cache.get ttl s now endpoint ps with
    | (some d, s₁) => (d, s₁, rl, false)
    | (none, s₁) => networkRequest useCache ttl method endpoint ps net now s₁ rl
  else
    networkRequest useCache ttl method endpoint ps net now s rl

end FilmotClient

/-- Items of a search result list (`result` / `videos`); their identity is
all the pagination logic sees. -/
abbrev Item : Type := ℕ

/-- One parsed page response as `search_subtitles_paginated` inspects it:
an `"error"` dict, or a normal dict with its item list (the
`result`/`videos` key) and its optional `totalresultcount`. -/
inductive PageResult where
  | err (msg : String)
  | ok (items : List Item) (total : Option ℕ)
deriving DecidableEq

/-- Python truthiness test `if max_results and n >= max_results`
(api.py lines 245, 289): `None` and `0` are both falsy. -/
def maxReached (maxResults : Option ℕ) (n : ℕ) : Bool :=
  match maxResults with
  | some m => decide (0 < m) && decide (m ≤ n)
  | none => false

/-- The loop body of `search_subtitles_paginated` (api.py lines 229-251).
`fuel` counts the remaining iterations of `range(1, max_pages + 1)`,
`pageNum` the next page to fetch, `total` the `total_results` accumulator.
Produces the list of yielded page dicts. -/
def pagGo (fetch : ℕ → PageResult) (maxResults : Option ℕ) :
    ℕ → ℕ → ℕ → List PageResult
  | 0, _, _ => []
  | fuel + 1, pageNum, total =>
    match fetch pageNum with
    | .err e => [.err e]
    | .ok items tot =>
      if items.isEmpty then []
      else
        .ok items tot ::
          (let total₁ := total + items.length
           if maxReached maxResults total₁ then []
           else if tot.getD 0 ≤ total₁ then []
           else pagGo fetch maxResults fuel (pageNum + 1) total₁)

/-- Model of `search_subtitles_paginated(query, max_pages, max_results, ...)`: the
sequence of pages the generator yields, given `fetch` = what
`search_subtitles(query, page=n, ...)` returns for page `n`. -/
def paginatedList (fetch : ℕ → PageResult) (maxPages : ℕ)
    (maxResults : Option ℕ) : List PageResult :=
  pagGo fetch maxResults maxPages 1 0

/-- What `search_subtitles_all` returns: the first page's error dict
verbatim (no `result` list), or the aggregate dict
`{result, totalresultcount, pages_fetched, results_returned}` (with
`results_returned = items.length`). -/
inductive AggOut where
  | firstErr (msg : String)
  | agg (items : List Item) (totalCount : ℕ) (pagesFetched : ℕ)
deriving DecidableEq

/-- The item list of an aggregate result (`[]` for a first-page error). -/
def AggOut.itemsOf : AggOut → List Item
  | .firstErr _ => []
  | .agg items _ _ => items

/-- The loop of `search_subtitles_all` (api.py lines 276-298) over the
pages the generator yields, carrying `all_videos`, `total_count` and
`pages_fetched`.  An error page returns the partial aggregate when items
were already accumulated, else the error dict itself; reaching
`max_results` truncates with `all_videos[:max_results]` and stops. -/
def aggGo (maxResults : Option ℕ) :
    List PageResult → List Item → ℕ → ℕ → AggOut
  | [], all, tc, pf => .agg all tc pf
  | .err e :: _, all, tc, pf =>
      if all.isEmpty then .firstErr e else .agg all tc pf
  | .ok items tot :: rest, all, tc, pf =>
      let all₁ := all ++ items
      let tc₁ := tot.getD all₁.length
      if maxReached maxResults all₁.length then
        .agg (all₁.take (maxResults.getD 0)) tc₁ (pf + 1)
      else aggGo maxResults rest all₁ tc₁ (pf + 1)

/-- Model of `FilmotClient.search_subtitles_all(query, max_pages, max_results, ...)`.
The generator is consumed in order and both loops stop under the same
conditions, so folding over the eagerly-computed yield list is equivalent
to the lazy interleaving in the source. -/
def searchAll (fetch : ℕ → PageResult) (maxPages : ℕ)
    (maxResults : Option ℕ) : AggOut :=
  aggGo maxResults (paginatedList fetch maxPages maxResults) [] 0 0

/-! Auxiliary notions used to state and prove the claims. -/

/-- Predicate: `fetch` returns exactly the given ok-pages for consecutive page numbers
starting at `n`. -/
def pagesMatch (fetch : ℕ → PageResult) : ℕ → List (List Item × Option ℕ) → Prop
  | _, [] => True
  | n, p :: ps => fetch n = .ok p.1 p.2 ∧ pagesMatch fetch (n + 1) ps

/-- Starting from accumulated count `acc`, the pagination loop continues
past each of these ok-pages: neither the `max_results` stop nor the
server-total stop fires. -/
def contOk (maxResults : Option ℕ) : List (List Item × Option ℕ) → ℕ → Prop
  | [], _ => True
  | p :: ps, acc =>
    maxReached maxResults (acc + p.1.length) = false ∧
    ¬(p.2.getD 0 ≤ acc + p.1.length) ∧
    contOk maxResults ps (acc + p.1.length)

/-- The `total_count` accumulator of `search_subtitles_all` after
processing the given ok-pages on top of `all` / `tc`. -/
def lastTotal : List (List Item × Option ℕ) → List Item → ℕ → ℕ
  | [], _, tc => tc
  | p :: ps, all, _ => lastTotal ps (all ++ p.1) (p.2.getD (all ++ p.1).length)

/-- A feedback event reported to the adaptive limiter. -/
inductive AdEvent where
  | success
  | rateLimit

/-- Apply one feedback event. -/
def adStep (st : RLState) : AdEvent → RLState
  | .success => AdaptiveRateLimiter.reportSuccess st
  | .rateLimit => AdaptiveRateLimiter.reportRateLimit st

/-- Strict key order on parameter pairs. -/
def keyLT (a b : String × String) : Prop := a.1 < b.1

instance : IsAntisymm (String × String) keyLT :=
  ⟨fun _ _ h₁ h₂ => absurd h₂ (not_lt.2 (le_of_lt h₁))⟩

/-- Concrete stores and states used by witnesses. -/
def corruptStore : Store :=
  fun k => if k = Cache.getCacheKey "ep" [] then some .corrupt else none

/-! Helper lemmas. -/

lemma pairwise_keyLT_of_le_ne {l : List (String × String)}
    (hle : l.Pairwise keyLE) (hne : l.Pairwise fun a b => a.1 ≠ b.1) :
    l.Pairwise keyLT := by
  induction l with
  | nil => exact List.Pairwise.nil
  | cons a l ih =>
    rw [List.pairwise_cons] at hle hne ⊢
    exact ⟨fun b hb => lt_of_le_of_ne (hle.1 b hb) (hne.1 b hb),
      ih hle.2 hne.2⟩

/-- C3: a payload written by `Cache.set` at time `now` is returned by
`Cache.get` at every time `t` with `t - now ≤ ttl`, and at every later `t`
the read returns absent and deletes the entry from the backing store. -/
theorem C3_cache_ttl_boundary (ttl now t : ℚ) (endpoint : String)
    (ps : List (String × String)) (d : Payload) (s : Store) :
    (Cache.get ttl (Cache.set s now endpoint ps d) t endpoint ps =
      if t - now ≤ ttl then (some d, Cache.set s now endpoint ps d)
      else (none,
        (Cache.set s now endpoint ps d).unlink (Cache.getCacheKey endpoint ps))) ∧
    ((Cache.get ttl (Cache.set s now endpoint ps d) t endpoint ps).2
        (Cache.getCacheKey endpoint ps) =
      if t - now ≤ ttl then some (.entry now d) else none) := by
  have hkey : Cache.set s now endpoint ps d (Cache.getCacheKey endpoint ps) =
      some (.entry now d) := by
    simp [Cache.set, Store.write]
  constructor
  · simp only [Cache.get, hkey]
    split_ifs with h₁ h₂ h₂ <;> first
      | rfl
      | (exfalso; linarith)
  · simp only [Cache.get, hkey]
    split_ifs with h₁ h₂ h₂ <;>
      simp_all [Store.unlink, Cache.set, Store.write] <;> linarith

/-- C4: two parameter mappings that contain the same key/value pairs after
`None`-stripping (each with no duplicate keys, as Python dicts guarantee)
produce the same cache fingerprint for any endpoint. -/
theorem C4_fingerprint_stability (endpoint : String)
    (p₁ p₂ : List (String × Option String))
    (h₁ : ((stripNone p₁).map Prod.fst).Nodup)
    (h₂ : ((stripNone p₂).map Prod.fst).Nodup)
    (hset : ∀ kv, kv ∈ stripNone p₁ ↔ kv ∈ stripNone p₂) :
    Cache.getCacheKey endpoint (stripNone p₁) =
      Cache.getCacheKey endpoint (stripNone p₂) := by
  have nd₁ : (stripNone p₁).Nodup := h₁.of_map _
  have nd₂ : (stripNone p₂).Nodup := h₂.of_map _
  have hperm : List.Perm (stripNone p₁) (stripNone p₂) :=
    (List.perm_ext_iff_of_nodup nd₁ nd₂).2 hset
  have hpn₁ : (stripNone p₁).Pairwise fun a b => a.1 ≠ b.1 :=
    List.pairwise_map.1 h₁
  have hpn₂ : (stripNone p₂).Pairwise fun a b => a.1 ≠ b.1 :=
    List.pairwise_map.1 h₂
  have hsym : ∀ {a b : String × String}, a.1 ≠ b.1 → b.1 ≠ a.1 :=
    fun h => Ne.symm h
  have hs₁ : ((stripNone p₁).insertionSort keyLE).Pairwise keyLT :=
    pairwise_keyLT_of_le_ne (List.sorted_insertionSort keyLE _)
      (((List.perm_insertionSort keyLE (stripNone p₁)).pairwise_iff hsym).2 hpn₁)
  have hs₂ : ((stripNone p₂).insertionSort keyLE).Pairwise keyLT :=
    pairwise_keyLT_of_le_ne (List.sorted_insertionSort keyLE _)
      (((List.perm_insertionSort keyLE (stripNone p₂)).pairwise_iff hsym).2 hpn₂)
  have hps : List.Perm ((stripNone p₁).insertionSort keyLE)
      ((stripNone p₂).insertionSort keyLE) :=
    ((List.perm_insertionSort keyLE (stripNone p₁)).trans hperm).trans
      (List.perm_insertionSort keyLE (stripNone p₂)).symm
  have heq : (stripNone p₁).insertionSort keyLE = (stripNone p₂).insertionSort keyLE :=
    List.eq_of_perm_of_sorted hps hs₁ hs₂
  unfold Cache.getCacheKey dumpsSorted
  rw [heq]

/-- C4 witness: two concrete parameter lists in different orders, one with
a `None` entry, share a fingerprint. -/
theorem C4_fingerprint_stability_witness :
    Cache.getCacheKey "ep" (stripNone [("b", some "2"), ("a", some "1")]) =
      Cache.getCacheKey "ep"
        (stripNone [("a", some "1"), ("c", none), ("b", some "2")]) :=
  C4_fingerprint_stability "ep" [("b", some "2"), ("a", some "1")]
    [("a", some "1"), ("c", none), ("b", some "2")]
    (by decide) (by decide)
    (by intro kv; constructor <;> (intro h; simp [stripNone] at h ⊢; tauto))

lemma adFold_invariant : ∀ (evs : List AdEvent) (st : RLState),
    st.maxBackoff = 10 → 1 ≤ st.backoff → st.backoff ≤ 10 →
    (evs.foldl adStep st).maxBackoff = 10 ∧
    1 ≤ (evs.foldl adStep st).backoff ∧ (evs.foldl adStep st).backoff ≤ 10 := by
  intro evs
  induction evs with
  | nil => exact fun st hm h₁ h₂ => ⟨hm, h₁, h₂⟩
  | cons e evs ih =>
    intro st hm h₁ h₂
    cases e with
    | success =>
      refine ih _ hm (le_max_left _ _) (max_le (by norm_num) ?_)
      nlinarith
    | rateLimit =>
      refine ih _ hm ?_ ?_
      · simp only [adStep, AdaptiveRateLimiter.reportRateLimit, hm]
        exact le_min (by norm_num) (by linarith)
      · simp only [adStep, AdaptiveRateLimiter.reportRateLimit, hm]
        exact min_le_left _ _

/-- C5: under any sequence of `report_success` / `report_rate_limit`
events, the adaptive limiter's backoff factor stays within
`[1.0, max_backoff]`; `report_rate_limit` bumps the consecutive-error
counter and doubles the backoff capped at the maximum, `report_success`
resets the counter and multiplies the backoff by the decay constant 0.9
floored at 1.0. -/
theorem C5_backoff_bounds (rps : ℚ) (burst : ℕ) (evs : List AdEvent) :
    (1 ≤ (evs.foldl adStep (initRL rps burst)).backoff ∧
      (evs.foldl adStep (initRL rps burst)).backoff ≤
        (initRL rps burst).maxBackoff) ∧
    (∀ st : RLState,
      (AdaptiveRateLimiter.reportRateLimit st).consecutiveErrors =
          st.consecutiveErrors + 1 ∧
        (AdaptiveRateLimiter.reportRateLimit st).backoff =
          min st.maxBackoff (st.backoff * 2)) ∧
    (∀ st : RLState,
      (AdaptiveRateLimiter.reportSuccess st).consecutiveErrors = 0 ∧
        (AdaptiveRateLimiter.reportSuccess st).backoff =
          max 1 (st.backoff * (9 / 10))) := by
  refine ⟨?_, fun st => ⟨rfl, rfl⟩, fun st => ⟨rfl, rfl⟩⟩
  have h := adFold_invariant evs (initRL rps burst) rfl (by simp [initRL])
    (by simp [initRL])
  exact ⟨h.2.1, by simpa [initRL] using h.2.2⟩

/-- C8 counterexample: a corrupt entry is NOT removed by the read that
finds it — `Cache.get` returns absent but the store (and the corrupt
entry) are unchanged, contradicting the claim that the read deletes it. -/
theorem C8_counterexample :
    (Cache.get 10 corruptStore 0 "ep" []).1 = none ∧
    (Cache.get 10 corruptStore 0 "ep" []).2 = corruptStore ∧
    corruptStore (Cache.getCacheKey "ep" []) = some .corrupt := by
  refine ⟨rfl, rfl, ?_⟩
  simp [corruptStore]

/-- C8 amended: a read that finds a corrupt entry returns absent without
raising and leaves the store unchanged (the corrupt entry is removed by
the construction-time auto-purge or an explicit sweep, not by `get`). -/
theorem C8_corrupt_read_silent (ttl now : ℚ) (s : Store) (endpoint : String)
    (ps : List (String × String))
    (h : s (Cache.getCacheKey endpoint ps) = some .corrupt) :
    Cache.get ttl s now endpoint ps = (none, s) := by
  simp [Cache.get, h]

/-- C8 witness. -/
theorem C8_corrupt_read_silent_witness :
    Cache.get 10 corruptStore 0 "ep" [] = (none, corruptStore) :=
  C8_corrupt_read_silent 10 0 corruptStore "ep" [] (by simp [corruptStore])

/-- C9 counterexample: on a freshly constructed `AdaptiveRateLimiter`
(rps 1, burst 5) with no `acquire` ever called, `report_rate_limit` is NOT
a no-op: it sets the backoff factor to 2 and the error counter to 1, and
the next `acquire` waits 1 second instead of 0. -/
theorem C9_counterexample :
    AdaptiveRateLimiter.reportRateLimit (initRL 1 5) ≠ initRL 1 5 ∧
    (AdaptiveRateLimiter.reportRateLimit (initRL 1 5)).backoff = 2 ∧
    (AdaptiveRateLimiter.reportRateLimit (initRL 1 5)).consecutiveErrors = 1 ∧
    (AdaptiveRateLimiter.acquire
      (AdaptiveRateLimiter.reportRateLimit (initRL 1 5)) 0).1 = 1 ∧
    (AdaptiveRateLimiter.acquire (initRL 1 5) 0).1 = 0 := by
  have h1 : AdaptiveRateLimiter.reportRateLimit (initRL 1 5) =
      { initRL 1 5 with consecutiveErrors := 1, backoff := 2 } := by
    simp [AdaptiveRateLimiter.reportRateLimit, initRL]
    norm_num
  refine ⟨?_, by rw [h1], by rw [h1], ?_, ?_⟩
  · intro h
    have := congrArg RLState.backoff h
    rw [h1] at this
    simp [initRL] at this
  · rw [h1]
    norm_num [AdaptiveRateLimiter.acquire, RateLimiter.acquire,
      RateLimiter.pruneWindow, initRL]
  · norm_num [AdaptiveRateLimiter.acquire, RateLimiter.acquire,
      RateLimiter.pruneWindow, initRL]

/-- C9 amended: the base-class `report_success`/`report_rate_limit` are
unconditional no-ops, and on a freshly constructed limiter the adaptive
`report_success` is a no-op as well (state unchanged, hence every
subsequent `acquire` behaves as if it had never been called); the adaptive
`report_rate_limit`, by contrast, mutates the state even before any
`acquire` (see the counterexample). -/
theorem C9_report_before_acquire :
    (∀ st : RLState, RateLimiter.reportSuccess st = st) ∧
    (∀ st : RLState, RateLimiter.reportRateLimit st = st) ∧
    (∀ (rps : ℚ) (burst : ℕ),
      AdaptiveRateLimiter.reportSuccess (initRL rps burst) = initRL rps burst) ∧
    (∀ (rps : ℚ) (burst : ℕ) (now : ℚ),
      AdaptiveRateLimiter.acquire
          (AdaptiveRateLimiter.reportSuccess (initRL rps burst)) now =
        AdaptiveRateLimiter.acquire (initRL rps burst) now) := by
  have hfresh : ∀ (rps : ℚ) (burst : ℕ),
      AdaptiveRateLimiter.reportSuccess (initRL rps burst) = initRL rps burst := by
    intro rps burst
    simp [AdaptiveRateLimiter.reportSuccess, initRL]
    norm_num
  exact ⟨fun _ => rfl, fun _ => rfl, hfresh, fun rps burst now => by rw [hfresh]⟩

/-- Concrete store holding one fresh entry, for the C1 witness. -/
def hitStore : Store :=
  fun k => if k = Cache.getCacheKey "ep" [("a", "1")] then
    some (.entry 0 ⟨"payload", false⟩) else none

/-- C1: a GET request with caching on and `skip_cache` false whose
`None`-stripped params hit a valid cache entry returns the cached payload
with no network call and the rate limiter's entire state unchanged (the
store is whatever the read left). -/
theorem C1_cache_hit_bypasses_limiter (ttl now : ℚ) (endpoint : String)
    (params : List (String × Option String)) (net : NetResult)
    (s : Store) (rl : RLState) (d : Payload) (s₁ : Store)
    (h : Cache.get ttl s now endpoint (stripNone params) = (some d, s₁)) :
    FilmotClient.request true ttl "GET" endpoint params false net now s rl =
      (d, s₁, rl, false) := by
  simp [FilmotClient.request, h]

/-- C1 witness: a concrete hit, with a `None`-valued param stripped before
the lookup. -/
theorem C1_cache_hit_bypasses_limiter_witness :
    FilmotClient.request true 10 "GET" "ep" [("a", some "1"), ("b", none)]
        false (.ok ⟨"x", false⟩) 5 hitStore (initRL 1 5) =
      (⟨"payload", false⟩, hitStore, initRL 1 5, false) :=
  C1_cache_hit_bypasses_limiter 10 5 "ep" [("a", some "1"), ("b", none)]
    (.ok ⟨"x", false⟩) hitStore (initRL 1 5) ⟨"payload", false⟩ hitStore
    (by
      have h1 : stripNone [("a", some "1"), ("b", none)] = [("a", "1")] := by
        simp [stripNone]
      rw [h1]
      simp only [Cache.get, hitStore]
      norm_num)

lemma pruneWindow_head_ge (now : ℚ) :
    ∀ (l : List ℚ) (h : ℚ),
      (RateLimiter.pruneWindow now l).head? = some h → now - 1 ≤ h := by
  intro l
  induction l with
  | nil => intro h hh; simp [RateLimiter.pruneWindow] at hh
  | cons t ts ih =>
    intro h hh
    by_cases hc : t < now - 1
    · rw [show RateLimiter.pruneWindow now (t :: ts) =
          RateLimiter.pruneWindow now ts from by
            simp [RateLimiter.pruneWindow, hc]] at hh
      exact ih h hh
    · rw [show RateLimiter.pruneWindow now (t :: ts) = t :: ts from by
          simp [RateLimiter.pruneWindow, hc]] at hh
      simp at hh
      exact hh ▸ not_lt.1 hc

lemma pruneWindow_getLast (now : ℚ) :
    ∀ (l : List ℚ) (t : ℚ), l.getLast? = some t → now - 1 ≤ t →
      (RateLimiter.pruneWindow now l).getLast? = some t := by
  intro l
  induction l with
  | nil => intro t h _; simp at h
  | cons a ts ih =>
    intro t hlast hge
    cases ts with
    | nil =>
      simp at hlast
      subst hlast
      have hna : ¬ a < now - 1 := not_lt.2 hge
      simp [RateLimiter.pruneWindow, hna]
    | cons b ts₂ =>
      have hlast₂ : (b :: ts₂).getLast? = some t := by
        rwa [List.getLast?_cons_cons] at hlast
      by_cases hc : a < now - 1
      · rw [show RateLimiter.pruneWindow now (a :: b :: ts₂) =
            RateLimiter.pruneWindow now (b :: ts₂) from by
              simp [RateLimiter.pruneWindow, hc]]
        exact ih t hlast₂ hge
      · rw [show RateLimiter.pruneWindow now (a :: b :: ts₂) =
            a :: b :: ts₂ from by simp [RateLimiter.pruneWindow, hc]]
        rw [List.getLast?_cons_cons]
        exact hlast₂

lemma acquire_fst_eq (st : RLState) (now : ℚ) :
    (RateLimiter.acquire st now).1 =
      match (RateLimiter.pruneWindow now st.times).getLast? with
      | some last =>
          if RateLimiter.burstCandidate st now < last + 1 / st.rps - now
          then last + 1 / st.rps - now
          else RateLimiter.burstCandidate st now
      | none => RateLimiter.burstCandidate st now := rfl

lemma acquire_times_eq (st : RLState) (now : ℚ) :
    (RateLimiter.acquire st now).2.times =
      (if (RateLimiter.pruneWindow now st.times).length < st.burst
       then RateLimiter.pruneWindow now st.times
       else (RateLimiter.pruneWindow now st.times).drop 1) ++
        [if 0 < (RateLimiter.acquire st now).1
         then now + (RateLimiter.acquire st now).1 else now] := by
  by_cases h : (RateLimiter.pruneWindow now st.times).length < st.burst <;>
    simp only [RateLimiter.acquire, h, if_true, if_false, ite_true, ite_false] <;>
    rfl

lemma burstCandidate_nonneg (st : RLState) (now : ℚ) (hburst : 1 ≤ st.burst) :
    0 ≤ RateLimiter.burstCandidate st now := by
  unfold RateLimiter.burstCandidate
  by_cases hcap : st.burst ≤ (RateLimiter.pruneWindow now st.times).length
  · simp only [hcap, if_true, ite_true]
    cases hts : RateLimiter.pruneWindow now st.times with
    | nil =>
      rw [hts] at hcap
      simp at hcap
      exact absurd hcap (by omega)
    | cons h t =>
      have hh : (RateLimiter.pruneWindow now st.times).head? = some h := by
        rw [hts]; rfl
      have := pruneWindow_head_ge now st.times h hh
      simp only [List.headD_cons]
      linarith
  · simp [hcap]

/-- C2 amended: whenever `1 ≤ ratePerSecond` (so the minimum interval does
not exceed the one-second pruning window) and the backoff plays no role
(base `acquire`), the wait is the max of the burst-window candidate and
the minimum-interval candidate over the pruned window, floored at 0; the
new admission `now + wait` is at least `1/R` after the previously admitted
timestamp and is recorded at the end of the window. -/
theorem C2_min_interval_spacing (st : RLState) (now tprev : ℚ)
    (hrps : 1 ≤ st.rps) (hburst : 1 ≤ st.burst)
    (hlast : st.times.getLast? = some tprev) :
    0 ≤ (RateLimiter.acquire st now).1 ∧
    (RateLimiter.acquire st now).1 =
      max 0 (max (RateLimiter.burstCandidate st now)
        ((RateLimiter.intervalCandidate st now).getD 0)) ∧
    1 / st.rps ≤ now + (RateLimiter.acquire st now).1 - tprev ∧
    (RateLimiter.acquire st now).2.times.getLast? =
      some (now + (RateLimiter.acquire st now).1) := by
  have hrpos : (0:ℚ) < st.rps := lt_of_lt_of_le one_pos hrps
  have hdiv : 1 / st.rps ≤ 1 := by
    rw [div_le_one hrpos]; exact hrps
  have hbc := burstCandidate_nonneg st now hburst
  rcases hgl : (RateLimiter.pruneWindow now st.times).getLast? with _ | last
  · have hts : RateLimiter.pruneWindow now st.times = [] :=
      List.getLast?_eq_none_iff.1 hgl
    have hbc0 : RateLimiter.burstCandidate st now = 0 := by
      have hnc : ¬ st.burst ≤ (RateLimiter.pruneWindow now st.times).length := by
        rw [hts]; simp; omega
      simp [RateLimiter.burstCandidate, hnc]
    have hw : (RateLimiter.acquire st now).1 = 0 := by
      rw [acquire_fst_eq, hgl, hbc0]
    have hic : RateLimiter.intervalCandidate st now = none := by
      simp [RateLimiter.intervalCandidate, hgl]
    have htp : tprev < now - 1 := by
      by_contra hnp
      push_neg at hnp
      have := pruneWindow_getLast now st.times tprev hlast hnp
      rw [hgl] at this
      exact Option.noConfusion this
    have hadm : (if 0 < (RateLimiter.acquire st now).1
        then now + (RateLimiter.acquire st now).1 else now) =
        now + (RateLimiter.acquire st now).1 := by
      rw [hw]; simp
    refine ⟨by rw [hw], by rw [hw, hbc0, hic]; simp, by rw [hw]; linarith, ?_⟩
    rw [acquire_times_eq, hadm, List.getLast?_concat]
  · have hic : RateLimiter.intervalCandidate st now =
        some (last + 1 / st.rps - now) := by
      simp [RateLimiter.intervalCandidate, hgl]
    have hw : (RateLimiter.acquire st now).1 =
        max (RateLimiter.burstCandidate st now) (last + 1 / st.rps - now) := by
      rw [acquire_fst_eq, hgl]
      dsimp only
      by_cases hcmp : RateLimiter.burstCandidate st now < last + 1 / st.rps - now
      · rw [if_pos hcmp]
        exact (max_eq_right (le_of_lt hcmp)).symm
      · rw [if_neg hcmp]
        exact (max_eq_left (not_lt.1 hcmp)).symm
    have hw0 : 0 ≤ (RateLimiter.acquire st now).1 := by
      rw [hw]; exact le_trans hbc (le_max_left _ _)
    have hadm : (if 0 < (RateLimiter.acquire st now).1
        then now + (RateLimiter.acquire st now).1 else now) =
        now + (RateLimiter.acquire st now).1 := by
      by_cases h0 : 0 < (RateLimiter.acquire st now).1
      · rw [if_pos h0]
      · rw [if_neg h0, le_antisymm (not_lt.1 h0) hw0, add_zero]
    refine ⟨hw0, ?_, ?_, ?_⟩
    · rw [hw, hic]
      simp only [Option.getD_some]
      exact (max_eq_right (le_trans hbc (le_max_left _ _))).symm
    · by_cases hnp : now - 1 ≤ tprev
      · have hpl := pruneWindow_getLast now st.times tprev hlast hnp
        rw [hgl] at hpl
        have hlt : last = tprev := by
          injection hpl
        have hwge : last + 1 / st.rps - now ≤ (RateLimiter.acquire st now).1 := by
          rw [hw]; exact le_max_right _ _
        rw [hlt] at hwge
        linarith
      · push_neg at hnp
        linarith
    · rw [acquire_times_eq, hadm, List.getLast?_concat]

/-- Concrete limiter states for the C2 counterexample and witness. -/
def cexRL : RLState :=
  { times := [0], rps := 1/2, burst := 5, totalRequests := 1,
    totalWaits := 0, totalWaitTime := 0, consecutiveErrors := 0,
    backoff := 1, maxBackoff := 10 }

def witRL : RLState :=
  { times := [0], rps := 1, burst := 5, totalRequests := 1,
    totalWaits := 0, totalWaitTime := 0, consecutiveErrors := 0,
    backoff := 1, maxBackoff := 10 }

/-- C2 counterexample: with `ratePerSecond = 1/2` (minimum interval 2 s),
one request admitted at t = 0 and the next `acquire` at t = 6/5, the
previous timestamp has already left the one-second window, so the wait is
0 and the new request is admitted at 6/5 — only 6/5 < 2 = 1/R seconds
after the previous admission, refuting the claimed minimum spacing. -/
theorem C2_counterexample :
    (RateLimiter.acquire cexRL (6/5)).1 = 0 ∧
    (RateLimiter.acquire cexRL (6/5)).2.times = [6/5] ∧
    cexRL.times.getLast? = some 0 ∧
    ¬ (1 / cexRL.rps ≤ (6/5 + (RateLimiter.acquire cexRL (6/5)).1) - 0) := by
  have hw : (RateLimiter.acquire cexRL (6/5)).1 = 0 := by
    have hpr : RateLimiter.pruneWindow (6/5) cexRL.times = [] := by
      norm_num [cexRL, RateLimiter.pruneWindow]
    have hbc0 : RateLimiter.burstCandidate cexRL (6/5) = 0 := by
      have hnc : ¬ cexRL.burst ≤
          (RateLimiter.pruneWindow (6/5) cexRL.times).length := by
        rw [hpr]; simp [cexRL]
      simp [RateLimiter.burstCandidate, hnc]
    rw [acquire_fst_eq, hpr]
    simpa using hbc0
  refine ⟨hw, ?_, by simp [cexRL], ?_⟩
  · have hpr : RateLimiter.pruneWindow (6/5) cexRL.times = [] := by
      norm_num [cexRL, RateLimiter.pruneWindow]
    rw [acquire_times_eq, hpr, hw]
    simp [cexRL]
  · rw [hw]
    norm_num [cexRL]

/-- C2 witness for the amended spacing theorem: rps 1, one admission at
t = 0, next `acquire` at t = 1/2 is delayed to t = 1, exactly 1/R apart. -/
theorem C2_min_interval_spacing_witness :
    1 / witRL.rps ≤ 1/2 + (RateLimiter.acquire witRL (1/2)).1 - 0 ∧
    (RateLimiter.acquire witRL (1/2)).2.times.getLast? =
      some (1/2 + (RateLimiter.acquire witRL (1/2)).1) :=
  ⟨(C2_min_interval_spacing witRL (1/2) 0 (by norm_num [witRL])
      (by norm_num [witRL]) (by simp [witRL])).2.2.1,
   (C2_min_interval_spacing witRL (1/2) 0 (by norm_num [witRL])
      (by norm_num [witRL]) (by simp [witRL])).2.2.2⟩

lemma pagGo_trace (fetch : ℕ → PageResult) (maxResults : Option ℕ) (e : String) :
    ∀ (ps : List (List Item × Option ℕ)) (fuel pageNum total : ℕ),
      ps.length < fuel →
      pagesMatch fetch pageNum ps →
      (∀ p ∈ ps, p.1 ≠ []) →
      contOk maxResults ps total →
      fetch (pageNum + ps.length) = .err e →
      pagGo fetch maxResults fuel pageNum total =
        ps.map (fun p => PageResult.ok p.1 p.2) ++ [.err e] := by
  intro ps
  induction ps with
  | nil =>
    intro fuel pageNum total hfuel _ _ _ herr
    cases fuel with
    | zero => omega
    | succ fuel =>
      simp only [List.length_nil, Nat.add_zero] at herr
      simp [pagGo, herr]
  | cons p ps ih =>
    intro fuel pageNum total hfuel hmatch hne hcont herr
    obtain ⟨hf, hmatch₂⟩ := hmatch
    obtain ⟨hstop, hreach, hcont₂⟩ := hcont
    cases fuel with
    | zero => omega
    | succ fuel =>
      have hne₁ : p.1 ≠ [] := hne p (by simp)
      have hemp : p.1.isEmpty = false := List.isEmpty_eq_false.2 hne₁
      have hoff : pageNum + 1 + ps.length = pageNum + (p :: ps).length := by
        simp [List.length_cons]
        omega
      simp only [pagGo, hf, hemp, Bool.false_eq_true, if_false, hstop,
        List.map_cons, List.cons_append]
      rw [if_neg hreach]
      rw [ih fuel (pageNum + 1) (total + p.1.length) (by simp at hfuel; omega)
        hmatch₂ (fun q hq => hne q (List.mem_cons_of_mem _ hq)) hcont₂
        (by rw [hoff]; exact herr)]

/-- Accumulated item count of a list of ok-pages. -/
def sumLens (ps : List (List Item × Option ℕ)) : ℕ :=
  (ps.map fun p => p.1.length).sum

lemma pagGo_trace_stop (fetch : ℕ → PageResult) (maxResults : Option ℕ) :
    ∀ (ps : List (List Item × Option ℕ)) (q : List Item × Option ℕ)
      (fuel pageNum total : ℕ),
      ps.length < fuel →
      pagesMatch fetch pageNum (ps ++ [q]) →
      (∀ p ∈ ps ++ [q], p.1 ≠ []) →
      contOk maxResults ps total →
      (maxReached maxResults (total + sumLens ps + q.1.length) = true ∨
        (maxReached maxResults (total + sumLens ps + q.1.length) = false ∧
          q.2.getD 0 ≤ total + sumLens ps + q.1.length)) →
      pagGo fetch maxResults fuel pageNum total =
        (ps ++ [q]).map (fun p => PageResult.ok p.1 p.2) := by
  intro ps
  induction ps with
  | nil =>
    intro q fuel pageNum total hfuel hmatch hne _ hstop
    cases fuel with
    | zero => omega
    | succ fuel =>
      obtain ⟨hf, -⟩ := hmatch
      have hne₁ : q.1 ≠ [] := hne q (by simp)
      have hemp : q.1.isEmpty = false := List.isEmpty_eq_false.2 hne₁
      simp only [sumLens, List.map_nil, List.sum_nil, Nat.add_zero,
        Nat.zero_add] at hstop
      rcases hstop with hstop | ⟨hstop, hreach⟩
      · simp [pagGo, hf, hemp, hstop]
      · simp [pagGo, hf, hemp, hstop, hreach]
  | cons p ps ih =>
    intro q fuel pageNum total hfuel hmatch hne hcont hstop
    obtain ⟨hf, hmatch₂⟩ := hmatch
    obtain ⟨hstopc, hreach, hcont₂⟩ := hcont
    cases fuel with
    | zero => omega
    | succ fuel =>
      have hne₁ : p.1 ≠ [] := hne p (by simp)
      have hemp : p.1.isEmpty = false := List.isEmpty_eq_false.2 hne₁
      have hsum : total + p.1.length + sumLens ps + q.1.length =
          total + sumLens (p :: ps) + q.1.length := by
        simp [sumLens]
        omega
      simp only [pagGo, hf, hemp, Bool.false_eq_true, if_false, hstopc,
        List.cons_append, List.map_cons]
      rw [if_neg hreach]
      rw [ih q fuel (pageNum + 1) (total + p.1.length) (by simp at hfuel; omega)
        hmatch₂ (fun r hr => hne r (List.mem_cons_of_mem _ hr)) hcont₂
        (by rw [hsum]; exact hstop)]

lemma aggGo_oks_err (maxResults : Option ℕ) (e : String) :
    ∀ (ps : List (List Item × Option ℕ)) (all : List Item) (tc pf : ℕ),
      contOk maxResults ps all.length →
      all ++ (ps.map Prod.fst).flatten ≠ [] →
      aggGo maxResults (ps.map (fun p => PageResult.ok p.1 p.2) ++ [.err e])
          all tc pf =
        .agg (all ++ (ps.map Prod.fst).flatten) (lastTotal ps all tc)
          (pf + ps.length) := by
  intro ps
  induction ps with
  | nil =>
    intro all tc pf _ hne
    simp only [List.map_nil, List.flatten_nil, List.append_nil] at hne ⊢
    have hemp : all.isEmpty = false := List.isEmpty_eq_false.2 hne
    simp [aggGo, hemp, lastTotal]
  | cons p ps ih =>
    intro all tc pf hcont hne
    obtain ⟨hstop, -, hcont₂⟩ := hcont
    simp only [List.map_cons, List.cons_append, aggGo]
    rw [show maxReached maxResults (all ++ p.1).length = false from by
      rw [List.length_append]; exact hstop]
    simp only [Bool.false_eq_true, if_false, List.append_eq]
    rw [ih (all ++ p.1) (p.2.getD (all ++ p.1).length) (pf + 1)
      (by rw [List.length_append]; exact hcont₂)
      (by rwa [List.map_cons, List.flatten_cons, ← List.append_assoc] at hne)]
    rw [lastTotal, List.flatten_cons, ← List.append_assoc]
    congr 1
    simp [List.length_cons]
    omega

lemma aggGo_take (m : ℕ) :
    ∀ (ps : List (List Item × Option ℕ)) (all : List Item) (tc pf : ℕ),
      all.length < m →
      (aggGo (some m) (ps.map fun p => PageResult.ok p.1 p.2) all tc pf).itemsOf =
        (all ++ (ps.map Prod.fst).flatten).take m := by
  intro ps
  induction ps with
  | nil =>
    intro all tc pf hlt
    simp only [List.map_nil, aggGo, AggOut.itemsOf, List.flatten_nil,
      List.append_nil]
    exact (List.take_of_length_le (le_of_lt hlt)).symm
  | cons p ps ih =>
    intro all tc pf hlt
    simp only [List.map_cons, aggGo]
    by_cases hcap : m ≤ all.length + p.1.length
    · rw [show maxReached (some m) (all ++ p.1).length = true from by
        simp [maxReached, List.length_append]
        omega]
      simp only [if_true, AggOut.itemsOf, Option.getD_some]
      rw [List.flatten_cons, ← List.append_assoc]
      exact (List.take_append_of_le_length (by rw [List.length_append]; omega)).symm
    · rw [show maxReached (some m) (all ++ p.1).length = false from by
        simp [maxReached, List.length_append]
        omega]
      simp only [Bool.false_eq_true, if_false, List.append_eq]
      rw [ih (all ++ p.1) _ (pf + 1) (by rw [List.length_append]; omega)]
      rw [List.flatten_cons, ← List.append_assoc]

/-- C6: if the very first page errors, `search_subtitles_all` returns that
error object directly; if a later page errors after at least one
successful (nonempty) page was yielded, it returns the items accumulated
from the successful pages, in page order, with no error. -/
theorem C6_error_handling (fetch : ℕ → PageResult) (maxPages : ℕ)
    (maxResults : Option ℕ) :
    (∀ e : String, 1 ≤ maxPages → fetch 1 = .err e →
      searchAll fetch maxPages maxResults = .firstErr e) ∧
    (∀ (ps : List (List Item × Option ℕ)) (e : String),
      ps ≠ [] →
      ps.length + 1 ≤ maxPages →
      pagesMatch fetch 1 ps →
      (∀ p ∈ ps, p.1 ≠ []) →
      contOk maxResults ps 0 →
      fetch (ps.length + 1) = .err e →
      searchAll fetch maxPages maxResults =
        .agg ((ps.map Prod.fst).flatten) (lastTotal ps [] 0) ps.length) := by
  constructor
  · intro e hmp herr
    cases maxPages with
    | zero => omega
    | succ mp => simp [searchAll, paginatedList, pagGo, herr, aggGo]
  · intro ps e hps hmp hmatch hne hcont herr
    have htrace := pagGo_trace fetch maxResults e ps maxPages 1 0 (by omega)
      hmatch hne hcont (by rw [Nat.add_comm]; exact herr)
    have hjoin : ([] : List Item) ++ (ps.map Prod.fst).flatten ≠ [] := by
      cases ps with
      | nil => exact absurd rfl hps
      | cons p ps₂ =>
        simp only [List.nil_append, List.map_cons, List.flatten_cons]
        exact List.append_ne_nil_of_left_ne_nil (hne p (by simp)) _
    have hagg := aggGo_oks_err maxResults e ps [] 0 0 hcont hjoin
    simp only [searchAll, paginatedList]
    rw [htrace, hagg]
    simp

/-- Concrete fetch functions for the C6 witness. -/
def fetchA : ℕ → PageResult := fun _ => .err "boom"

def fetchB : ℕ → PageResult :=
  fun n => if n = 1 then .ok [1, 2] (some 5) else .err "late"

/-- C6 witness: first-page error propagated; later-page error swallowed in
favor of the partial result. -/
theorem C6_error_handling_witness :
    searchAll fetchA 3 none = .firstErr "boom" ∧
    searchAll fetchB 3 none = .agg [1, 2] 5 1 := by
  constructor
  · exact (C6_error_handling fetchA 3 none).1 "boom" (by norm_num) rfl
  · have h := (C6_error_handling fetchB 3 none).2 [([1, 2], some 5)] "late"
      (by simp) (by norm_num) ⟨rfl, trivial⟩
      (by intro p hp; simp at hp; simp [hp])
      ⟨rfl, by norm_num, trivial⟩ rfl
    simpa [lastTotal] using h

/-- C7: with pages of 50 items each, a large server total and
`max_results = 75`, the aggregate returns exactly 75 items (page 1 whole,
then 25 of page 2) and `pages_fetched = 2`; and in general, over any
sequence of successful pages the aggregate's item list is the page-order
concatenation truncated to `max_results`. -/
theorem C7_max_results_truncation :
    (∀ (fetch : ℕ → PageResult) (A : ℕ → List Item) (N maxPages : ℕ),
      (∀ i, 1 ≤ i → fetch i = .ok (A i) (some N)) →
      (∀ i, (A i).length = 50) →
      100 ≤ N → 2 ≤ maxPages →
      searchAll fetch maxPages (some 75) = .agg (A 1 ++ (A 2).take 25) N 2 ∧
        (A 1 ++ (A 2).take 25).length = 75) ∧
    (∀ (ps : List (List Item × Option ℕ)) (m : ℕ), 0 < m →
      (aggGo (some m) (ps.map fun p => PageResult.ok p.1 p.2) [] 0 0).itemsOf =
        ((ps.map Prod.fst).flatten).take m) := by
  constructor
  · intro fetch A N maxPages hf hlen hN hmp
    have hne₁ : A 1 ≠ [] := List.ne_nil_of_length_pos (by rw [hlen 1]; norm_num)
    have hne₂ : A 2 ≠ [] := List.ne_nil_of_length_pos (by rw [hlen 2]; norm_num)
    have htrace := pagGo_trace_stop fetch (some 75) [(A 1, some N)]
      (A 2, some N) maxPages 1 0 (by simp; omega)
      ⟨hf 1 (by norm_num), hf 2 (by norm_num), trivial⟩
      (by
        intro p hp
        simp at hp
        rcases hp with hp | hp <;> simp [hp, hne₁, hne₂])
      (by
        refine ⟨?_, ?_, trivial⟩
        · simp [maxReached, hlen 1]
        · simp [hlen 1]; omega)
      (by
        left
        simp [maxReached, sumLens, hlen 1, hlen 2])
    have hm₁ : maxReached (some 75) (A 1).length = false := by
      simp [maxReached, hlen 1]
    have hm₂ : maxReached (some 75) (A 1 ++ A 2).length = true := by
      simp [maxReached, List.length_append, hlen 1, hlen 2]
    constructor
    · simp only [searchAll, paginatedList]
      rw [htrace]
      simp only [List.cons_append, List.nil_append, List.map_cons,
        List.map_nil, aggGo, hm₁, hm₂, Bool.false_eq_true, if_false,
        if_true, Option.getD_some]
      rw [List.take_append_eq_append_take,
        List.take_of_length_le (by rw [hlen 1]; norm_num), hlen 1]
    · simp [List.length_append, List.length_take, hlen 1, hlen 2]
  · intro ps m hm
    simpa using aggGo_take m ps [] 0 0 (by simpa using hm)

/-- Concrete fetch for the C7 witness: every page has 50 items, server
total 1000. -/
def fetchC : ℕ → PageResult := fun _ => .ok (List.range 50) (some 1000)

/-- C7 witness. -/
theorem C7_max_results_truncation_witness :
    searchAll fetchC 10 (some 75) =
      .agg (List.range 50 ++ (List.range 50).take 25) 1000 2 ∧
    (aggGo (some 2)
        ([([1, 2, 3], (none : Option ℕ))].map fun p => PageResult.ok p.1 p.2)
        [] 0 0).itemsOf =
      (([([1, 2, 3], (none : Option ℕ))].map Prod.fst).flatten).take 2 :=
  ⟨((C7_max_results_truncation).1 fetchC (fun _ => List.range 50) 1000 10
      (fun _ _ => rfl) (fun _ => by simp) (by norm_num) (by norm_num)).1,
   (C7_max_results_truncation).2 [([1, 2, 3], (none : Option ℕ))] 2
     (by norm_num)⟩

/-- C10 (implicit): a successful first page with a nonempty item list but
no `totalresultcount` (or zero), whose item count has not triggered the
`max_results` stop, ends the pagination: the defensive default of 0 makes
the reached-server-total check fire at once, so exactly one page is
yielded regardless of `max_pages`. -/
theorem C10_missing_total_single_page (fetch : ℕ → PageResult)
    (maxPages : ℕ) (maxResults : Option ℕ) (items : List Item)
    (tot : Option ℕ)
    (h₁ : fetch 1 = .ok items tot) (h₂ : items ≠ [])
    (h₃ : tot = none ∨ tot = some 0) (h₄ : 1 ≤ maxPages)
    (h₅ : maxReached maxResults items.length = false) :
    paginatedList fetch maxPages maxResults = [.ok items tot] := by
  have h := pagGo_trace_stop fetch maxResults [] (items, tot) maxPages 1 0
    (by simp; omega) ⟨h₁, trivial⟩
    (by intro p hp; simp at hp; simp [hp, h₂])
    trivial
    (by
      right
      constructor
      · simpa [sumLens] using h₅
      · rcases h₃ with h | h <;> simp [h, sumLens])
  simpa [paginatedList] using h

/-- Concrete fetch for the C10 witness: page 1 has one item and no
`totalresultcount`; later pages would error, but are never fetched. -/
def fetchD : ℕ → PageResult :=
  fun n => if n = 1 then .ok [5] none else .err "late2"

/-- C10 witness. -/
theorem C10_missing_total_single_page_witness :
    paginatedList fetchD 10 none = [.ok [5] none] :=
  C10_missing_total_single_page fetchD 10 none [5] none rfl (by simp)
    (Or.inl rfl) (by norm_num) rfl
